import Mathlib

/-!
Shallow embedding of the persona-driven document analysis pipeline
(`src/main.py` of the `adobe_1b` repository) and proofs of the spec claims.

Modelling conventions:
* The embedding model and cosine similarity are abstracted as a function
  `sim : String → String → ℚ`, where `sim context text` stands for
  `cosine_similarity(model.encode([context]), model.encode([text]))`.
  Scores are rationals instead of IEEE floats: every claim checked here is
  about ordering, selection and counting, not float rounding.
* Regex matching (`re.finditer(title_regex, full_text, re.MULTILINE)`) is
  external input to `extract_sections`: a match is a start offset, an end
  offset and the text of the `title` group, mirroring `match.start()`,
  `match.end()` and `match.group('title')`.
* PDF text extraction is external: a document is its path together with
  `none` (extraction raised, caught by the `try/except` in
  `process_documents`) or `some (pages, matches)`.
* Python `sorted(..., key=k, reverse=True)` is a stable descending sort,
  embedded as the insertion sort `sortDesc`.
* Python `dict` assignment `d[k] = v` is `dictInsert` on an association
  list: replace in place if the key exists, else append.
-/

set_option maxRecDepth 100000

namespace DocAnalyst

/-- One regex match of the title regex on the full document text:
`start` = `match.start()`, `stop` = `match.end()`,
`titleGroup` = `match.group('title')`. -/
structure RMatch where
  start : Nat
  stop : Nat
  titleGroup : String
deriving DecidableEq

/-- A section dict as built by `extract_sections` and later enriched by
`process_documents` (`document`) and `rank_sections` (`score`). -/
structure Section where
  page : Nat
  title : String
  text : String
  document : String := ""
  score : ℚ := 0
deriving DecidableEq

/-- A subsection dict as built by `extract_subsections`. -/
structure Subsection where
  document : String
  page : Nat
  refined_text : String
  score : ℚ
deriving DecidableEq

/-- Whitespace for Python string methods. -/
def isPySpace (c : Char) : Bool := c.isWhitespace

/-- Python `s.strip()`: drop leading and trailing whitespace. -/
def pyStrip (s : String) : String :=
  ((s.toList.dropWhile isPySpace).reverse.dropWhile isPySpace).reverse.asString

/-- Worker for Python `s.split()` without separator: `acc` holds the
current word reversed. -/
def splitWordsAux : List Char → List Char → List String
  | [], [] => []
  | [], acc => [acc.reverse.asString]
  | c :: cs, acc =>
    if isPySpace c then
      match acc with
      | [] => splitWordsAux cs []
      | _ => acc.reverse.asString :: splitWordsAux cs []
    else splitWordsAux cs (c :: acc)

/-- Python `s.split()` (no separator): whitespace-separated words,
empties dropped. -/
def wordsOf (s : String) : List String :=
  splitWordsAux s.toList []

/-- Worker for Python `s.split('\n\n')`: split at each non-overlapping
occurrence of a blank line, keeping empty pieces. -/
def splitParasAux : List Char → List Char → List (List Char)
  | [], acc => [acc.reverse]
  | '\n' :: '\n' :: cs, acc => acc.reverse :: splitParasAux cs []
  | c :: cs, acc => splitParasAux cs (c :: acc)

/-- Python `s.split('\n\n')` as used on section bodies. -/
def pySplitParas (s : String) : List String :=
  (splitParasAux s.toList []).map List.asString

/-- Python slicing `s[a:b]` on code points. -/
def strSlice (s : String) (a b : Nat) : String :=
  ((s.toList.drop a).take (b - a)).asString

/-- The page loop of `extract_sections`: `pn` is the current 1-based page
index, `acc` the running `char_count`; returns 1 (the initial value of
`page_number`) when the loop finishes without a break. -/
def pageGo (start : Nat) : Nat → Nat → List Nat → Nat
  | _, _, [] => 1
  | pn, acc, len :: rest =>
    if start ≤ acc + (len + 1) then pn
    else pageGo start (pn + 1) (acc + (len + 1)) rest

/-- Page attribution of a title match: accumulate `len(page_text) + 1`
until the total reaches the match start offset. -/
def pageNumber (pageLens : List Nat) (start : Nat) : Nat :=
  pageGo start 1 0 pageLens

/-- The per-match loop body of `extract_sections` (lines 59-90 of
`main.py`): each match is paired with the start of the *immediately next*
match in the list (or the end of the text) to delimit its body. -/
def sectionsFromMatches (fullText : String) (pageLens : List Nat) :
    List RMatch → List Section
  | [] => []
  | m :: rest =>
    let title := pyStrip m.titleGroup
    let tail := sectionsFromMatches fullText pageLens rest
    if 10 < (wordsOf title).length then tail
    else
      let endOfContent := match rest with
        | [] => fullText.length
        | m2 :: _ => m2.start
      let sectionText := pyStrip (strSlice fullText m.stop endOfContent)
      if sectionText = "" ∨ sectionText.length < 100 then tail
      else { page := pageNumber pageLens m.start, title := title,
             text := sectionText } :: tail

/-- `extract_sections`: pages are joined with a newline; an empty full
text yields no sections. -/
def extractSections (pages : List String) (ms : List RMatch) :
    List Section :=
  let fullText := String.intercalate "\n" pages
  if fullText = "" then []
  else sectionsFromMatches fullText (pages.map String.length) ms

/-- Modelled from the spec (section 4.1 step 3, claim C3): the start of
the next *surviving* title match — the next match whose title passes the
ten-word false-positive filter — or the end of the document. The code
itself uses the start of the immediately next match, surviving or not. -/
def nextSurvivingStart (fullText : String) : List RMatch → Nat
  | [] => fullText.length
  | m :: rest =>
    if 10 < (wordsOf (pyStrip m.titleGroup)).length then nextSurvivingStart fullText rest
    else m.start

/-- Modelled from the spec (claim C3): the per-match loop with each body
ending at the next surviving match instead of the next match. -/
def sectionsFromMatchesSpecC3 (fullText : String) (pageLens : List Nat) :
    List RMatch → List Section
  | [] => []
  | m :: rest =>
    let title := pyStrip m.titleGroup
    let tail := sectionsFromMatchesSpecC3 fullText pageLens rest
    if 10 < (wordsOf title).length then tail
    else
      let sectionText :=
        pyStrip (strSlice fullText m.stop (nextSurvivingStart fullText rest))
      if sectionText = "" ∨ sectionText.length < 100 then tail
      else { page := pageNumber pageLens m.start, title := title,
             text := sectionText } :: tail

/-- Modelled from the spec (claim C3): `extract_sections` as the spec
describes it, with section bodies delimited by surviving matches. -/
def extractSectionsSpecC3 (pages : List String) (ms : List RMatch) :
    List Section :=
  let fullText := String.intercalate "\n" pages
  if fullText = "" then []
  else sectionsFromMatchesSpecC3 fullText (pages.map String.length) ms

/-- Each match paired with the start offset of the immediately following
match in the list, or the length of the full text for the last match. -/
def withNextStart (fullText : String) : List RMatch → List (RMatch × Nat)
  | [] => []
  | [m] => [(m, fullText.length)]
  | m :: m2 :: rest => (m, m2.start) :: withNextStart fullText (m2 :: rest)

/-- Stable insertion of `a` into a descending-sorted list: `a` goes in
front of the first element whose key is not larger, so earlier elements
win ties — the stability guarantee of Python `sorted`. -/
def insertDesc {α : Type} (key : α → ℚ) (a : α) : List α → List α
  | [] => [a]
  | b :: l => if key a < key b then b :: insertDesc key a l else a :: b :: l

/-- Python `sorted(l, key=key, reverse=True)`: stable descending sort. -/
def sortDesc {α : Type} (key : α → ℚ) : List α → List α
  | [] => []
  | a :: l => insertDesc key a (sortDesc key l)

/-- `rank_sections`: score every section against the persona/job context
and sort descending by score. -/
def rankSections (sections : List Section) (persona job : String)
    (sim : String → String → ℚ) : List Section :=
  let context := persona ++ ". " ++ job
  sortDesc (fun s => s.score)
    (sections.map (fun s =>
      { s with score := sim context (s.title ++ " " ++ s.text) }))

/-- The scored paragraphs of a section, in order of appearance
(the loop body of `extract_subsections`): split on blank lines, drop
paragraphs whose trimmed length is under 50, score the raw paragraph. -/
def candidateSubs (sec : Section) (simContext : String → ℚ) :
    List Subsection :=
  (pySplitParas sec.text).filterMap (fun para =>
    if (pyStrip para).length < 50 then none
    else some { document := sec.document, page := sec.page,
                refined_text := pyStrip para, score := simContext para })

/-- `extract_subsections`: keep the top 3 candidates by descending
score. -/
def extractSubsections (sec : Section) (simContext : String → ℚ) :
    List Subsection :=
  (sortDesc (fun u => u.score) (candidateSubs sec simContext)).take 3

/-- Worker splitting a path on every slash. -/
def splitSlashAux : List Char → List Char → List (List Char)
  | [], acc => [acc.reverse]
  | c :: cs, acc =>
    if c = '/' then acc.reverse :: splitSlashAux cs []
    else splitSlashAux cs (c :: acc)

/-- `os.path.basename` on POSIX paths: the part after the last slash. -/
def baseName (p : String) : String :=
  ((splitSlashAux p.toList []).map List.asString).getLastD p

/-- `np.mean` on a (nonempty) list of scores. -/
def listMean (l : List ℚ) : ℚ :=
  l.sum / (l.length : ℚ)

/-- Python dict assignment `d[k] = v`: replace in place when the key is
present, append otherwise. -/
def dictInsert {α : Type} (k : String) (v : α) :
    List (String × α) → List (String × α)
  | [] => [(k, v)]
  | p :: l => if p.1 = k then (k, v) :: l else p :: dictInsert k v l

/-- Python dict lookup `d[k]` / `d.get(k)`. -/
def dictLookup {α : Type} (k : String) : List (String × α) → Option α
  | [] => none
  | p :: l => if p.1 = k then some p.2 else dictLookup k l

/-- One input document handed to `process_documents`: its path and either
`none` (PDF processing raised an exception, caught and skipped) or the
extracted page texts together with the title-regex matches on their
newline-join. -/
structure DocInput where
  path : String
  pageData : Option (List String × List RMatch)
deriving DecidableEq

/-- The sections a document contributes (empty when extraction failed). -/
def docSections (d : DocInput) : List Section :=
  match d.pageData with
  | none => []
  | some (pages, ms) => extractSections pages ms

/-- One iteration of the Step-1 loop of `process_documents`
(lines 122-140): skip section-less documents, else attach the basename,
rank, and record the ranked sections and the mean of the top 5 scores. -/
def pipeStep (persona job : String) (sim : String → String → ℚ)
    (st : List (String × ℚ) × List (String × List Section)) (d : DocInput) :
    List (String × ℚ) × List (String × List Section) :=
  let secs := docSections d
  if secs = [] then st
  else
    let docName := baseName d.path
    let ranked := rankSections
      (secs.map (fun s => { s with document := docName })) persona job sim
    (dictInsert docName (listMean ((ranked.take 5).map (fun s => s.score))) st.1,
     dictInsert docName ranked st.2)

/-- `document_scores` and `all_sections_by_doc` after the Step-1 loop. -/
def pipelineState (docs : List DocInput) (persona job : String)
    (sim : String → String → ℚ) :
    List (String × ℚ) × List (String × List Section) :=
  docs.foldl (pipeStep persona job sim) ([], [])

/-- `sorted_documents`: the score dict sorted descending by value. -/
def sortedDocuments (docs : List DocInput) (persona job : String)
    (sim : String → String → ℚ) : List (String × ℚ) :=
  sortDesc Prod.snd (pipelineState docs persona job sim).1

/-- The slot taken from the `i`-th ranked document: its top `k` ranked
sections (lines 147-157); empty when fewer documents are ranked. -/
def docSlot (st2 : List (String × List Section))
    (ranked : List (String × ℚ)) (i k : Nat) : List Section :=
  match ranked.drop i with
  | [] => []
  | nv :: _ => ((dictLookup nv.1 st2).getD []).take k

/-- `top_sections` before the final re-sort: 2 from the best document,
2 from the second, 1 from the third. -/
def pooledSections (docs : List DocInput) (persona job : String)
    (sim : String → String → ℚ) : List Section :=
  let st := pipelineState docs persona job sim
  let ranked := sortDesc Prod.snd st.1
  docSlot st.2 ranked 0 2 ++ docSlot st.2 ranked 1 2 ++ docSlot st.2 ranked 2 1

/-- `top_sections` after the final global re-sort by score (line 159). -/
def selectedSections (docs : List DocInput) (persona job : String)
    (sim : String → String → ℚ) : List Section :=
  sortDesc (fun s => s.score) (pooledSections docs persona job sim)

/-- The `metadata` object of the output. -/
structure OutMeta where
  input_documents : List String
  persona : String
  job_to_be_done : String
  processing_timestamp : String
deriving DecidableEq

/-- One entry of `extracted_sections`. -/
structure OutSection where
  document : String
  page_number : Nat
  section_title : String
  importance_rank : Nat
deriving DecidableEq

/-- One entry of `sub_section_analysis`. -/
structure OutSub where
  document : String
  page_number : Nat
  refined_text : String
deriving DecidableEq

/-- The result object of `process_documents`. -/
structure Output where
  metadata : OutMeta
  extracted_sections : List OutSection
  sub_section_analysis : List OutSub
deriving DecidableEq

/-- `process_documents`, parametrised by the subsection extractor so that
"the Subsection Extractor is never invoked" is expressible. -/
def processDocumentsWith
    (subExt : Section → (String → ℚ) → List Subsection)
    (docs : List DocInput) (persona job : String)
    (sim : String → String → ℚ) (timestamp : String) : Output :=
  let sel := selectedSections docs persona job sim
  let context := persona ++ ". " ++ job
  let subs := sel.flatMap (fun sec => subExt sec (sim context))
  { metadata := { input_documents := docs.map (fun d => baseName d.path),
                  persona := persona, job_to_be_done := job,
                  processing_timestamp := timestamp },
    extracted_sections := sel.enum.map (fun p =>
      { document := p.2.document, page_number := p.2.page,
        section_title := p.2.title, importance_rank := p.1 + 1 }),
    sub_section_analysis := subs.map (fun u =>
      { document := u.document, page_number := u.page,
        refined_text := u.refined_text }) }

/-- The pipeline entry point `process_documents(pdf_paths, persona, job)`;
the timestamp parameter stands for `datetime.now().isoformat()`. -/
def processDocuments (docs : List DocInput) (persona job : String)
    (sim : String → String → ℚ) (timestamp : String) : Output :=
  processDocumentsWith extractSubsections docs persona job sim timestamp

/-! ### A concrete document, used by witnesses and counterexamples

One page whose text is six lines: a numbered heading, a long lowercase
body line, an eleven-word Title-Case line (a false-positive heading that
the ten-word filter discards), a short lowercase filler line, a second
numbered heading, and a second long lowercase body line. The matches
listed are exactly those the title regex produces on this text. -/

def exT0 : String := "1. Intro"

def exBody0 : String :=
  "the city has many quiet corners where travellers can rest and enjoy local food markets during the warm evening hours"

def exTitle1 : String :=
  "Wonderful Amazing Beautiful Delightful Excellent Fantastic Glorious Happy Incredible Joyful Kind"

def exMid : String := "some filler text here"

def exT2 : String := "2. Results"

def exBody2 : String :=
  "visitors should also taste the regional wine and cheese offered in the small family restaurants near the harbour district"

def exPage : String :=
  String.intercalate "\n" [exT0, exBody0, exTitle1, exMid, exT2, exBody2]

def exPages : List String := [exPage]

def exM0 : RMatch :=
  { start := 0, stop := exT0.length + 1, titleGroup := exT0 }

def exM1 : RMatch :=
  { start := exM0.stop + exBody0.length + 1,
    stop := exM0.stop + exBody0.length + 1 + exTitle1.length + 1,
    titleGroup := exTitle1 }

def exM2 : RMatch :=
  { start := exM1.stop + exMid.length + 1,
    stop := exM1.stop + exMid.length + 1 + exT2.length + 1,
    titleGroup := exT2 }

def exMatches : List RMatch := [exM0, exM1, exM2]

/-- A constant similarity function (every text scores 0). -/
def exSim : String → String → ℚ := fun _ _ => 0

/-- Document `a.pdf`: the concrete page above. -/
def exDocA : DocInput := { path := "a.pdf", pageData := some (exPages, exMatches) }

/-- Document `b.pdf`: nonempty text but no title matches, so it yields
no sections. -/
def exDocB : DocInput := { path := "b.pdf", pageData := some (["x"], []) }

def exDocs : List DocInput := [exDocA, exDocB]

/-- A 40-character paragraph (discarded by the subsection extractor). -/
def exPara40 : String := "a short paragraph that is just too small"

/-- An 80-character paragraph (kept by the subsection extractor). -/
def exPara80 : String :=
  "this paragraph is comfortably long enough to pass the fifty character threshold"

/-- A section whose body has one short and one long paragraph (the
scenario of spec section 8). -/
def exSubSection : Section :=
  { page := 2, title := "T", text := exPara40 ++ "\n\n" ++ exPara80,
    document := "a.pdf", score := 0 }

/-- A constant context scorer for the subsection extractor. -/
def exSimC : String → ℚ := fun _ => 0

/-! ### Lemmas about the stable descending sort -/

theorem insertDesc_perm {α : Type} (key : α → ℚ) (a : α) (l : List α) :
    (insertDesc key a l).Perm (a :: l) := by
  induction l with
  | nil => simp [insertDesc]
  | cons b t ih =>
    simp only [insertDesc]
    split
    · exact (ih.cons b).trans (List.Perm.swap a b t)
    · exact List.Perm.refl _

theorem sortDesc_perm {α : Type} (key : α → ℚ) (l : List α) :
    (sortDesc key l).Perm l := by
  induction l with
  | nil => simp [sortDesc]
  | cons a t ih => exact (insertDesc_perm key a (sortDesc key t)).trans (ih.cons a)

theorem mem_insertDesc {α : Type} {key : α → ℚ} {a x : α} {l : List α} :
    x ∈ insertDesc key a l ↔ x = a ∨ x ∈ l := by
  rw [(insertDesc_perm key a l).mem_iff, List.mem_cons]

theorem mem_sortDesc {α : Type} {key : α → ℚ} {x : α} {l : List α} :
    x ∈ sortDesc key l ↔ x ∈ l :=
  (sortDesc_perm key l).mem_iff

theorem insertDesc_pairwise {α : Type} (key : α → ℚ) (a : α) {l : List α}
    (h : l.Pairwise (fun x y => key y ≤ key x)) :
    (insertDesc key a l).Pairwise (fun x y => key y ≤ key x) := by
  induction l with
  | nil => simp [insertDesc]
  | cons b t ih =>
    rw [List.pairwise_cons] at h
    simp only [insertDesc]
    split
    · rename_i hab
      rw [List.pairwise_cons]
      refine ⟨fun y hy => ?_, ih h.2⟩
      rcases mem_insertDesc.mp hy with rfl | hy
      · exact le_of_lt hab
      · exact h.1 y hy
    · rename_i hab
      rw [List.pairwise_cons]
      exact ⟨fun y hy => by
        rcases List.mem_cons.mp hy with rfl | hy
        · exact le_of_not_lt hab
        · exact le_trans (h.1 y hy) (le_of_not_lt hab),
        List.pairwise_cons.mpr h⟩

theorem sortDesc_pairwise {α : Type} (key : α → ℚ) (l : List α) :
    (sortDesc key l).Pairwise (fun x y => key y ≤ key x) := by
  induction l with
  | nil => simp [sortDesc]
  | cons a t ih => exact insertDesc_pairwise key a ih

theorem filter_insertDesc {α : Type} (key : α → ℚ) (a : α) (l : List α) (q : ℚ) :
    (insertDesc key a l).filter (fun x => decide (key x = q)) =
      if key a = q then a :: l.filter (fun x => decide (key x = q))
      else l.filter (fun x => decide (key x = q)) := by
  induction l with
  | nil =>
    simp only [insertDesc, List.filter]
    by_cases haq : key a = q <;> simp [haq]
  | cons b t ih =>
    simp only [insertDesc]
    split
    · rename_i hab
      by_cases haq : key a = q
      · have hbq : ¬ key b = q := by
          intro hbq
          exact absurd hab (by rw [haq, hbq]; exact lt_irrefl q)
        simp [List.filter_cons, haq, hbq, ih]
      · simp only [List.filter_cons, ih, if_neg haq]
    · by_cases haq : key a = q <;> simp [List.filter_cons, haq]

theorem sortDesc_filter {α : Type} (key : α → ℚ) (l : List α) (q : ℚ) :
    (sortDesc key l).filter (fun x => decide (key x = q)) =
      l.filter (fun x => decide (key x = q)) := by
  induction l with
  | nil => rfl
  | cons a t ih =>
    simp only [sortDesc, filter_insertDesc, List.filter_cons, ih]
    by_cases haq : key a = q <;> simp [haq]

theorem sortDesc_length {α : Type} (key : α → ℚ) (l : List α) :
    (sortDesc key l).length = l.length :=
  (sortDesc_perm key l).length_eq

/-! ### Lemmas about Python dict insertion and lookup -/

theorem dictLookup_dictInsert {α : Type} (k n : String) (v : α)
    (l : List (String × α)) :
    dictLookup n (dictInsert k v l) =
      if k = n then some v else dictLookup n l := by
  induction l with
  | nil =>
    simp only [dictInsert, dictLookup]
  | cons p t ih =>
    simp only [dictInsert]
    by_cases h1 : p.1 = k
    · rw [if_pos h1]
      by_cases h2 : k = n <;> simp [dictLookup, h1, h2]
    · rw [if_neg h1]
      by_cases hp : p.1 = n
      · have h2 : ¬ k = n := fun h => h1 (by rw [hp, h])
        simp [dictLookup, hp, h2]
      · simp [dictLookup, hp, ih]

theorem mem_keys_dictInsert {α : Type} {k n : String} {v : α}
    {l : List (String × α)} :
    n ∈ (dictInsert k v l).map Prod.fst ↔ n = k ∨ n ∈ l.map Prod.fst := by
  induction l with
  | nil => simp [dictInsert]
  | cons p t ih =>
    simp only [dictInsert]
    split
    · rename_i h1
      simp only [List.map_cons, List.mem_cons, h1]
      tauto
    · simp only [List.map_cons, List.mem_cons, ih]
      tauto

theorem nodup_keys_dictInsert {α : Type} (k : String) (v : α)
    {l : List (String × α)} (h : (l.map Prod.fst).Nodup) :
    ((dictInsert k v l).map Prod.fst).Nodup := by
  induction l with
  | nil => simp [dictInsert]
  | cons p t ih =>
    rw [List.map_cons, List.nodup_cons] at h
    simp only [dictInsert]
    split
    · rename_i h1
      rw [List.map_cons, List.nodup_cons]
      exact ⟨h1 ▸ h.1, h.2⟩
    · rename_i h1
      rw [List.map_cons, List.nodup_cons]
      refine ⟨fun hm => ?_, ih h.2⟩
      rcases mem_keys_dictInsert.mp hm with rfl | hm
      · exact h1 rfl
      · exact h.1 hm

/-! ### Lemmas about the Section Segmenter -/

theorem mem_sectionsFromMatches {fullText : String} {pageLens : List Nat}
    {ms : List RMatch} {s : Section}
    (hs : s ∈ sectionsFromMatches fullText pageLens ms) :
    ∃ m ∈ ms, s.title = pyStrip m.titleGroup ∧ (wordsOf s.title).length ≤ 10 ∧
      s.page = pageNumber pageLens m.start ∧
      s.text ≠ "" ∧ 100 ≤ s.text.length := by
  induction ms with
  | nil => simp [sectionsFromMatches] at hs
  | cons m rest ih =>
    simp only [sectionsFromMatches] at hs
    split at hs
    · obtain ⟨m2, hm2, h⟩ := ih hs
      exact ⟨m2, List.mem_cons_of_mem m hm2, h⟩
    · rename_i htitle
      split at hs
      · obtain ⟨m2, hm2, h⟩ := ih hs
        exact ⟨m2, List.mem_cons_of_mem m hm2, h⟩
      · rename_i hbody
        push_neg at hbody
        rcases List.mem_cons.mp hs with rfl | hs
        · exact ⟨m, List.mem_cons_self m rest, rfl,
            Nat.le_of_not_lt htitle, rfl, hbody.1, hbody.2⟩
        · obtain ⟨m2, hm2, h⟩ := ih hs
          exact ⟨m2, List.mem_cons_of_mem m hm2, h⟩

theorem mem_extractSections {pages : List String} {ms : List RMatch}
    {s : Section} (hs : s ∈ extractSections pages ms) :
    pages ≠ [] ∧ ∃ m ∈ ms, s.title = pyStrip m.titleGroup ∧
      (wordsOf s.title).length ≤ 10 ∧
      s.page = pageNumber (pages.map String.length) m.start ∧
      s.text ≠ "" ∧ 100 ≤ s.text.length := by
  simp only [extractSections] at hs
  split at hs
  · simp at hs
  · rename_i hft
    refine ⟨fun h => ?_, mem_sectionsFromMatches hs⟩
    subst h
    exact hft rfl

theorem pageGo_bound (start : Nat) (ls : List Nat) :
    ∀ pn acc, pageGo start pn acc ls = 1 ∨
      ∃ k, k < ls.length ∧ pageGo start pn acc ls = pn + k := by
  induction ls with
  | nil => intro pn acc; exact Or.inl rfl
  | cons len rest ih =>
    intro pn acc
    simp only [pageGo]
    split
    · exact Or.inr ⟨0, by simp, by simp⟩
    · rcases ih (pn + 1) (acc + (len + 1)) with h | ⟨k, hk, h⟩
      · exact Or.inl h
      · refine Or.inr ⟨k + 1, by simpa using hk, ?_⟩
        rw [h]
        omega

theorem pageNumber_bound (pageLens : List Nat) (start : Nat)
    (h : pageLens ≠ []) :
    1 ≤ pageNumber pageLens start ∧ pageNumber pageLens start ≤ pageLens.length := by
  have hlen : 1 ≤ pageLens.length := by
    cases pageLens
    · exact absurd rfl h
    · simp
  rcases pageGo_bound start pageLens 1 0 with h1 | ⟨k, hk, h1⟩ <;>
    (unfold pageNumber; rw [h1]; omega)

theorem strSlice_empty (a b : Nat) : strSlice "" a b = "" := by
  have h : ("" : String).toList = [] := rfl
  have h2 : (([] : List Char).drop a).take (b - a) = [] := by simp
  simp only [strSlice, h, h2]
  rfl

theorem sectionsFromMatches_withNext (fullText : String) (pageLens : List Nat)
    (ms : List RMatch) :
    sectionsFromMatches fullText pageLens ms =
      (withNextStart fullText ms).filterMap (fun p =>
        if 10 < (wordsOf (pyStrip p.1.titleGroup)).length then none
        else
          if pyStrip (strSlice fullText p.1.stop p.2) = "" ∨
              (pyStrip (strSlice fullText p.1.stop p.2)).length < 100 then none
          else some { page := pageNumber pageLens p.1.start,
                      title := pyStrip p.1.titleGroup,
                      text := pyStrip (strSlice fullText p.1.stop p.2) }) := by
  induction ms with
  | nil => rfl
  | cons m rest ih =>
    cases rest with
    | nil =>
      have ht : sectionsFromMatches fullText pageLens [m] =
          (if 10 < (wordsOf (pyStrip m.titleGroup)).length then []
           else if pyStrip (strSlice fullText m.stop fullText.length) = "" ∨
               (pyStrip (strSlice fullText m.stop fullText.length)).length < 100 then []
           else [{ page := pageNumber pageLens m.start,
                   title := pyStrip m.titleGroup,
                   text := pyStrip (strSlice fullText m.stop fullText.length) }]) := rfl
      rw [ht, withNextStart]
      by_cases h1 : 10 < (wordsOf (pyStrip m.titleGroup)).length
      · simp [h1]
      · by_cases h2 : pyStrip (strSlice fullText m.stop fullText.length) = "" ∨
            (pyStrip (strSlice fullText m.stop fullText.length)).length < 100
        · simp [h1, h2]
        · simp [h1, h2]
    | cons m2 rest2 =>
      have ht : sectionsFromMatches fullText pageLens (m :: m2 :: rest2) =
          (if 10 < (wordsOf (pyStrip m.titleGroup)).length then
            sectionsFromMatches fullText pageLens (m2 :: rest2)
           else if pyStrip (strSlice fullText m.stop m2.start) = "" ∨
               (pyStrip (strSlice fullText m.stop m2.start)).length < 100 then
            sectionsFromMatches fullText pageLens (m2 :: rest2)
           else { page := pageNumber pageLens m.start,
                  title := pyStrip m.titleGroup,
                  text := pyStrip (strSlice fullText m.stop m2.start) } ::
             sectionsFromMatches fullText pageLens (m2 :: rest2)) := rfl
      rw [ht, withNextStart, List.filterMap_cons]
      by_cases h1 : 10 < (wordsOf (pyStrip m.titleGroup)).length
      · simp [h1, ih]
      · by_cases h2 : pyStrip (strSlice fullText m.stop m2.start) = "" ∨
            (pyStrip (strSlice fullText m.stop m2.start)).length < 100
        · simp [h1, h2, ih]
        · simp [h1, h2, ih]

/-! ### The Step-1 loop invariant of `process_documents` -/

theorem mem_rankSections {secs : List Section} {persona job : String}
    {sim : String → String → ℚ} {s : Section}
    (hs : s ∈ rankSections secs persona job sim) :
    ∃ w ∈ secs,
      s = { w with
            score := sim (persona ++ ". " ++ job) (w.title ++ " " ++ w.text) } := by
  simp only [rankSections] at hs
  rw [mem_sortDesc] at hs
  obtain ⟨w, hw, he⟩ := List.mem_map.mp hs
  exact ⟨w, hw, he.symm⟩

theorem rankSections_length (secs : List Section) (persona job : String)
    (sim : String → String → ℚ) :
    (rankSections secs persona job sim).length = secs.length := by
  simp only [rankSections]
  rw [sortDesc_length, List.length_map]

theorem rankSections_pairwise (secs : List Section) (persona job : String)
    (sim : String → String → ℚ) :
    (rankSections secs persona job sim).Pairwise
      (fun x y => y.score ≤ x.score) :=
  sortDesc_pairwise _ _

/-- The invariant of the `(document_scores, all_sections_by_doc)` pair
maintained by the Step-1 loop. -/
structure PipeInv (st : List (String × ℚ) × List (String × List Section)) :
    Prop where
  nodup1 : (st.1.map Prod.fst).Nodup
  nodup2 : (st.2.map Prod.fst).Nodup
  docEq : ∀ n secs, dictLookup n st.2 = some secs → ∀ s ∈ secs, s.document = n
  sorted2 : ∀ n secs, dictLookup n st.2 = some secs →
    secs.Pairwise (fun x y => y.score ≤ x.score)
  nonempty2 : ∀ n secs, dictLookup n st.2 = some secs → secs ≠ []
  meanEq : ∀ n v, dictLookup n st.1 = some v → ∃ secs,
    dictLookup n st.2 = some secs ∧
    v = listMean ((secs.take 5).map (fun s => s.score))

theorem pipeInv_base : PipeInv ([], []) := by
  refine ⟨by simp, by simp, ?_, ?_, ?_, ?_⟩ <;>
    (intro n x h; cases h)

theorem pipeInv_step (persona job : String) (sim : String → String → ℚ)
    {st : List (String × ℚ) × List (String × List Section)}
    (h : PipeInv st) (d : DocInput) :
    PipeInv (pipeStep persona job sim st d) := by
  simp only [pipeStep]
  split
  · exact h
  · rename_i hsecs
    refine ⟨nodup_keys_dictInsert _ _ h.nodup1, nodup_keys_dictInsert _ _ h.nodup2,
      ?_, ?_, ?_, ?_⟩
    · intro n secs hl
      rw [dictLookup_dictInsert] at hl
      split at hl
      · rename_i heq
        cases hl
        intro s hsm
        obtain ⟨w, hw, he⟩ := mem_rankSections hsm
        obtain ⟨w0, -, he0⟩ := List.mem_map.mp hw
        rw [← heq, he, ← he0]
      · exact h.docEq n secs hl
    · intro n secs hl
      rw [dictLookup_dictInsert] at hl
      split at hl
      · cases hl
        exact rankSections_pairwise _ _ _ _
      · exact h.sorted2 n secs hl
    · intro n secs hl
      rw [dictLookup_dictInsert] at hl
      split at hl
      · cases hl
        intro hnil
        have hlen := rankSections_length
          ((docSections d).map (fun s => { s with document := baseName d.path }))
          persona job sim
        rw [hnil] at hlen
        simp only [List.length_nil, List.length_map] at hlen
        exact hsecs (List.length_eq_zero.mp hlen.symm)
      · exact h.nonempty2 n secs hl
    · intro n v hl
      rw [dictLookup_dictInsert] at hl
      split at hl
      · rename_i heq
        cases hl
        exact ⟨_, by rw [dictLookup_dictInsert, if_pos heq], rfl⟩
      · rename_i hne
        obtain ⟨secs, hl2, hv⟩ := h.meanEq n v hl
        exact ⟨secs, by rw [dictLookup_dictInsert, if_neg hne]; exact hl2, hv⟩

theorem pipeInv_foldl (persona job : String) (sim : String → String → ℚ) :
    ∀ (docs : List DocInput) st, PipeInv st →
      PipeInv (docs.foldl (pipeStep persona job sim) st) := by
  intro docs
  induction docs with
  | nil => intro st h; exact h
  | cons d t ih =>
    intro st h
    rw [List.foldl_cons]
    exact ih _ (pipeInv_step persona job sim h d)

theorem pipeInv_pipelineState (docs : List DocInput) (persona job : String)
    (sim : String → String → ℚ) :
    PipeInv (pipelineState docs persona job sim) :=
  pipeInv_foldl persona job sim docs ([], []) pipeInv_base

/-- A name carries a score in the final state only if some input document
with that basename contributed at least one section. -/
theorem lookup_source (persona job : String) (sim : String → String → ℚ) :
    ∀ (docs : List DocInput) st (n : String),
      (dictLookup n (docs.foldl (pipeStep persona job sim) st).1).isSome →
      (dictLookup n st.1).isSome ∨
        ∃ d ∈ docs, baseName d.path = n ∧ docSections d ≠ [] := by
  intro docs
  induction docs with
  | nil => intro st n h; exact Or.inl h
  | cons d t ih =>
    intro st n h
    rw [List.foldl_cons] at h
    rcases ih _ n h with h1 | ⟨d2, hd2, hb⟩
    · simp only [pipeStep] at h1
      split at h1
      · exact Or.inl h1
      · rename_i hne
        rw [dictLookup_dictInsert] at h1
        split at h1
        · rename_i heq
          exact Or.inr ⟨d, List.mem_cons_self d t, heq, hne⟩
        · exact Or.inl h1
    · exact Or.inr ⟨d2, List.mem_cons_of_mem d hd2, hb⟩

/-! ### Claims C2, C3, C8: the Section Segmenter -/

/-- C2: every Section the Segmenter returns has a non-empty body of at
least 100 characters (the stored body is the stripped slice, so the bound
holds after trimming) and a title of at most 10 whitespace-separated
words; candidates violating either bound are discarded. -/
theorem segmenter_body_title_bounds (pages : List String) (ms : List RMatch)
    (s : Section) (hs : s ∈ extractSections pages ms) :
    s.text ≠ "" ∧ 100 ≤ s.text.length ∧ (wordsOf s.title).length ≤ 10 := by
  obtain ⟨-, m, -, -, hw, -, hne, hlen⟩ := mem_extractSections hs
  exact ⟨hne, hlen, hw⟩

/-- Witness for C2: the first section of the concrete document. -/
theorem segmenter_body_title_bounds_witness :
    exBody0 ≠ "" ∧ 100 ≤ exBody0.length ∧ (wordsOf "1. Intro").length ≤ 10 :=
  segmenter_body_title_bounds exPages exMatches
    ⟨1, "1. Intro", exBody0, "", 0⟩ (by decide)

/-- C3 counterexample: between the two accepted headings of the concrete
document sits a match whose eleven-word title is discarded by the
false-positive filter. The code ends the first body at that discarded
match; the spec's "next surviving title match" prediction extends it past
the discarded match, so the body texts differ. -/
theorem segmenter_next_surviving_counterexample :
    (extractSections exPages exMatches).map (fun s => s.text) ≠
      (extractSectionsSpecC3 exPages exMatches).map (fun s => s.text) := by
  decide

/-- C3 (amended): the body of every accepted section is exactly the
full-document text between the end of its title match and the start of
the *immediately next* title match in document order — whether or not
that next match is itself discarded — or the end of the document for the
last match, stripped of whitespace. -/
theorem segmenter_next_match_boundary (pages : List String) (ms : List RMatch) :
    extractSections pages ms =
      (withNextStart (String.intercalate "\n" pages) ms).filterMap (fun p =>
        if 10 < (wordsOf (pyStrip p.1.titleGroup)).length then none
        else
          if pyStrip (strSlice (String.intercalate "\n" pages) p.1.stop p.2) = "" ∨
              (pyStrip (strSlice (String.intercalate "\n" pages) p.1.stop p.2)).length < 100
          then none
          else some { page := pageNumber (pages.map String.length) p.1.start,
                      title := pyStrip p.1.titleGroup,
                      text := pyStrip (strSlice (String.intercalate "\n" pages) p.1.stop p.2) }) := by
  simp only [extractSections]
  split
  · rename_i h
    rw [h]
    symm
    rw [List.filterMap_eq_nil_iff]
    intro p hp
    have hsl : ∀ a b, pyStrip (strSlice "" a b) = "" := by
      intro a b
      rw [strSlice_empty]
      rfl
    simp [hsl]
  · exact sectionsFromMatches_withNext _ _ _

/-- C8: every Section's page number is the result of the cumulative
page-length attribution for the start offset of one of the matches, and
lies within [1, total pages of the document]. -/
theorem section_page_in_range (pages : List String) (ms : List RMatch)
    (s : Section) (hs : s ∈ extractSections pages ms) :
    1 ≤ s.page ∧ s.page ≤ pages.length ∧
      ∃ m ∈ ms, s.page = pageNumber (pages.map String.length) m.start := by
  obtain ⟨hp, m, hm, -, -, hpage, -, -⟩ := mem_extractSections hs
  have hb := pageNumber_bound (pages.map String.length) m.start
    (by simpa using hp)
  refine ⟨?_, ?_, m, hm, hpage⟩
  · rw [hpage]
    exact hb.1
  · rw [hpage]
    simpa using hb.2

/-- Witness for C8: the first section of the concrete document sits on
page 1 of its 1-page document. -/
theorem section_page_in_range_witness :
    1 ≤ (1 : Nat) ∧ (1 : Nat) ≤ exPages.length ∧
      ∃ m ∈ exMatches, (1 : Nat) = pageNumber (exPages.map String.length) m.start :=
  section_page_in_range exPages exMatches
    ⟨1, "1. Intro", exBody0, "", 0⟩ (by decide)

/-! ### Claim C1: the Section Selector -/

theorem docSlot_cases (st2 : List (String × List Section))
    (ranked : List (String × ℚ)) (i k : Nat) :
    docSlot st2 ranked i k = [] ∨
      ∃ nv rest, ranked.drop i = nv :: rest ∧
        docSlot st2 ranked i k = ((dictLookup nv.1 st2).getD []).take k := by
  unfold docSlot
  split
  · exact Or.inl rfl
  · rename_i nv rest h
    exact Or.inr ⟨nv, rest, h, rfl⟩

theorem docSlot_length_le (st2 : List (String × List Section))
    (ranked : List (String × ℚ)) (i k : Nat) :
    (docSlot st2 ranked i k).length ≤ k := by
  rcases docSlot_cases st2 ranked i k with h | ⟨nv, rest, hd, h⟩ <;> rw [h]
  · simp
  · exact List.length_take_le _ _

theorem mem_docSlot_document {st2 : List (String × List Section)}
    {ranked : List (String × ℚ)} {i k : Nat} {s : Section}
    (hdoc : ∀ n secs, dictLookup n st2 = some secs → ∀ t ∈ secs, t.document = n)
    (hs : s ∈ docSlot st2 ranked i k) :
    ∃ nv rest, ranked.drop i = nv :: rest ∧ s.document = nv.1 := by
  rcases docSlot_cases st2 ranked i k with h | ⟨nv, rest, hd, h⟩
  · rw [h] at hs
    cases hs
  · rw [h] at hs
    have hs2 := List.mem_of_mem_take hs
    cases hl : dictLookup nv.1 st2 with
    | none =>
      rw [hl] at hs2
      cases hs2
    | some secs =>
      rw [hl] at hs2
      simp only [Option.getD_some] at hs2
      exact ⟨nv, rest, hd, hdoc nv.1 secs hl s hs2⟩

theorem countP_docSlot_zero {st2 : List (String × List Section)}
    {ranked : List (String × ℚ)} {i k : Nat} {name : String}
    (hdoc : ∀ n secs, dictLookup n st2 = some secs → ∀ t ∈ secs, t.document = n)
    (hname : ∀ nv rest, ranked.drop i = nv :: rest → ¬ name = nv.1) :
    (docSlot st2 ranked i k).countP
      (fun t => decide (t.document = name)) = 0 := by
  rw [List.countP_eq_zero]
  intro t ht
  obtain ⟨nv, rest, hd, hdoceq⟩ := mem_docSlot_document hdoc ht
  simp only [decide_eq_true_eq]
  rw [hdoceq]
  exact fun hh => hname nv rest hd hh.symm

theorem countP_docSlot_le (st2 : List (String × List Section))
    (ranked : List (String × ℚ)) (i k : Nat) (name : String) :
    (docSlot st2 ranked i k).countP
      (fun t => decide (t.document = name)) ≤ k :=
  le_trans (List.countP_le_length _) (docSlot_length_le st2 ranked i k)

/-- The 2/2/1 pool never takes more than 2 sections of any one document. -/
theorem countP_pooled_le {st2 : List (String × List Section)}
    (hdoc : ∀ n secs, dictLookup n st2 = some secs → ∀ t ∈ secs, t.document = n)
    (r : List (String × ℚ)) (hnd : (r.map Prod.fst).Nodup) (name : String) :
    (docSlot st2 r 0 2 ++ docSlot st2 r 1 2 ++ docSlot st2 r 2 1).countP
      (fun t => decide (t.document = name)) ≤ 2 := by
  rw [List.countP_append, List.countP_append]
  have h0 := countP_docSlot_le st2 r 0 2 name
  have h1 := countP_docSlot_le st2 r 1 2 name
  have h2 := countP_docSlot_le st2 r 2 1 name
  rcases r with - | ⟨x, - | ⟨y, - | ⟨z, rest⟩⟩⟩
  · have z0 : ∀ i k, docSlot st2 ([] : List (String × ℚ)) i k = [] := by
      intro i k
      rcases docSlot_cases st2 [] i k with h | ⟨nv, rr, hd, -⟩
      · exact h
      · simp at hd
    rw [z0 0 2, z0 1 2, z0 2 1]
    simp
  · have z1 : ∀ k, docSlot st2 [x] 1 k = [] := by
      intro k
      rcases docSlot_cases st2 [x] 1 k with h | ⟨nv, rr, hd, -⟩
      · exact h
      · simp at hd
    have z2 : ∀ k, docSlot st2 [x] 2 k = [] := by
      intro k
      rcases docSlot_cases st2 [x] 2 k with h | ⟨nv, rr, hd, -⟩
      · exact h
      · simp at hd
    rw [z1 2, z2 1]
    simpa using h0
  · simp only [List.map_cons, List.nodup_cons, List.mem_cons] at hnd
    have hxy : ¬ x.1 = y.1 := fun hh => hnd.1 (by simp [hh])
    have z2 : ∀ k, docSlot st2 [x, y] 2 k = [] := by
      intro k
      rcases docSlot_cases st2 [x, y] 2 k with h | ⟨nv, rr, hd, -⟩
      · exact h
      · simp at hd
    rw [z2 1, List.countP_nil]
    by_cases hx : name = x.1
    · have c1 : (docSlot st2 [x, y] 1 2).countP
          (fun t => decide (t.document = name)) = 0 := by
        refine countP_docSlot_zero hdoc ?_
        intro nv rr hd
        simp only [List.drop_succ_cons, List.drop_zero] at hd
        cases hd
        rw [hx]
        exact hxy
      omega
    · have c0 : (docSlot st2 [x, y] 0 2).countP
          (fun t => decide (t.document = name)) = 0 := by
        refine countP_docSlot_zero hdoc ?_
        intro nv rr hd
        simp only [List.drop_zero] at hd
        cases hd
        exact hx
      omega
  · simp only [List.map_cons, List.nodup_cons, List.mem_cons] at hnd
    have hxy : ¬ x.1 = y.1 := fun hh => hnd.1 (Or.inl hh)
    have hxz : ¬ x.1 = z.1 := fun hh => hnd.1 (Or.inr (Or.inl hh))
    have hyz : ¬ y.1 = z.1 := fun hh => hnd.2.1 (Or.inl hh)
    have hd0 : (x :: y :: z :: rest).drop 0 = x :: (y :: z :: rest) := rfl
    have hd1 : (x :: y :: z :: rest).drop 1 = y :: (z :: rest) := rfl
    have hd2 : (x :: y :: z :: rest).drop 2 = z :: rest := rfl
    by_cases hx : name = x.1
    · have c1 : (docSlot st2 (x :: y :: z :: rest) 1 2).countP
          (fun t => decide (t.document = name)) = 0 := by
        refine countP_docSlot_zero hdoc ?_
        intro nv rr hd
        rw [hd1] at hd
        cases hd
        rw [hx]
        exact hxy
      have c2 : (docSlot st2 (x :: y :: z :: rest) 2 1).countP
          (fun t => decide (t.document = name)) = 0 := by
        refine countP_docSlot_zero hdoc ?_
        intro nv rr hd
        rw [hd2] at hd
        cases hd
        rw [hx]
        exact hxz
      omega
    · have c0 : (docSlot st2 (x :: y :: z :: rest) 0 2).countP
          (fun t => decide (t.document = name)) = 0 := by
        refine countP_docSlot_zero hdoc ?_
        intro nv rr hd
        rw [hd0] at hd
        cases hd
        exact hx
      by_cases hy : name = y.1
      · have c2 : (docSlot st2 (x :: y :: z :: rest) 2 1).countP
            (fun t => decide (t.document = name)) = 0 := by
          refine countP_docSlot_zero hdoc ?_
          intro nv rr hd
          rw [hd2] at hd
          cases hd
          rw [hy]
          exact hyz
        omega
      · have c1 : (docSlot st2 (x :: y :: z :: rest) 1 2).countP
            (fun t => decide (t.document = name)) = 0 := by
          refine countP_docSlot_zero hdoc ?_
          intro nv rr hd
          rw [hd1] at hd
          cases hd
          exact hy
        omega

/-- Every pooled section comes from one of the three best-ranked
documents. -/
theorem mem_pooled_top3 {st2 : List (String × List Section)}
    (hdoc : ∀ n secs, dictLookup n st2 = some secs → ∀ t ∈ secs, t.document = n)
    (r : List (String × ℚ)) {s : Section}
    (hs : s ∈ docSlot st2 r 0 2 ++ docSlot st2 r 1 2 ++ docSlot st2 r 2 1) :
    s.document ∈ (r.take 3).map Prod.fst := by
  have main : ∀ i, i < 3 → s ∈ docSlot st2 r i 1 ∨ s ∈ docSlot st2 r i 2 →
      s.document ∈ (r.take 3).map Prod.fst := by
    intro i hi hmem
    have hdd : ∃ nv rest, r.drop i = nv :: rest ∧ s.document = nv.1 := by
      rcases hmem with hm | hm
      · exact mem_docSlot_document hdoc hm
      · exact mem_docSlot_document hdoc hm
    obtain ⟨nv, rest, hd, hdoceq⟩ := hdd
    have hlen : i < r.length := by
      by_contra hc
      rw [List.drop_eq_nil_of_le (Nat.le_of_not_lt hc)] at hd
      cases hd
    have hnv : nv = r.get ⟨i, hlen⟩ := by
      have := List.drop_eq_getElem_cons hlen
      rw [this] at hd
      exact (List.cons.injEq _ _ _ _ ▸ hd).1.symm
    rw [hdoceq, hnv]
    rw [List.mem_map]
    refine ⟨r.get ⟨i, hlen⟩, ?_, rfl⟩
    rw [List.mem_take_iff_getElem]
    exact ⟨i, by omega, by simp [List.get_eq_getElem]⟩
  rw [List.mem_append, List.mem_append] at hs
  rcases hs with (h | h) | h
  · exact main 0 (by omega) (Or.inr h)
  · exact main 1 (by omega) (Or.inr h)
  · exact main 2 (by omega) (Or.inl h)

/-- C1: the Section Selector pools at most the top 2 sections of the
best-ranked document, the top 2 of the second and the top 1 of the third
(fewer when fewer documents contribute, never drawing from a fourth
document), so no document contributes more than 2 sections and the pool
never exceeds 5; the final global re-sort is a permutation of the pool;
and the per-document lists drawn from are sorted descending by score, so
the slots are each document's top sections. -/
theorem selector_diversity_bounds (docs : List DocInput)
    (persona job : String) (sim : String → String → ℚ)
    (name : String) (s : Section)
    (hs : s ∈ pooledSections docs persona job sim) :
    (pooledSections docs persona job sim).length ≤ 5 ∧
    (pooledSections docs persona job sim).countP
      (fun t => decide (t.document = name)) ≤ 2 ∧
    (selectedSections docs persona job sim).Perm
      (pooledSections docs persona job sim) ∧
    s.document ∈ ((sortedDocuments docs persona job sim).take 3).map Prod.fst ∧
    (∀ n secs,
      dictLookup n (pipelineState docs persona job sim).2 = some secs →
      secs.Pairwise (fun x y => y.score ≤ x.score)) := by
  have inv := pipeInv_pipelineState docs persona job sim
  have hpool : pooledSections docs persona job sim =
      docSlot (pipelineState docs persona job sim).2
          (sortDesc Prod.snd (pipelineState docs persona job sim).1) 0 2 ++
        docSlot (pipelineState docs persona job sim).2
          (sortDesc Prod.snd (pipelineState docs persona job sim).1) 1 2 ++
        docSlot (pipelineState docs persona job sim).2
          (sortDesc Prod.snd (pipelineState docs persona job sim).1) 2 1 := rfl
  have hnd : ((sortDesc Prod.snd (pipelineState docs persona job sim).1).map
      Prod.fst).Nodup := by
    have hp := (sortDesc_perm Prod.snd (pipelineState docs persona job sim).1).map
      Prod.fst
    exact (List.Perm.nodup_iff hp).mpr inv.nodup1
  refine ⟨?_, ?_, ?_, ?_, fun n secs hl => inv.sorted2 n secs hl⟩
  · rw [hpool, List.length_append, List.length_append]
    have h0 := docSlot_length_le (pipelineState docs persona job sim).2
      (sortDesc Prod.snd (pipelineState docs persona job sim).1) 0 2
    have h1 := docSlot_length_le (pipelineState docs persona job sim).2
      (sortDesc Prod.snd (pipelineState docs persona job sim).1) 1 2
    have h2 := docSlot_length_le (pipelineState docs persona job sim).2
      (sortDesc Prod.snd (pipelineState docs persona job sim).1) 2 1
    omega
  · rw [hpool]
    exact countP_pooled_le inv.docEq _ hnd name
  · exact sortDesc_perm _ _
  · rw [hpool] at hs
    exact mem_pooled_top3 inv.docEq _ hs

/-- Witness for C1 at the concrete two-document run. -/
theorem selector_diversity_bounds_witness :
    (pooledSections exDocs "p" "j" exSim).length ≤ 5 ∧
    (pooledSections exDocs "p" "j" exSim).countP
      (fun t => decide (t.document = "a.pdf")) ≤ 2 ∧
    (selectedSections exDocs "p" "j" exSim).Perm
      (pooledSections exDocs "p" "j" exSim) ∧
    ((⟨1, "1. Intro", exBody0, "a.pdf", 0⟩ : Section).document ∈
      ((sortedDocuments exDocs "p" "j" exSim).take 3).map Prod.fst) ∧
    (∀ n secs,
      dictLookup n (pipelineState exDocs "p" "j" exSim).2 = some secs →
      secs.Pairwise (fun x y => y.score ≤ x.score)) :=
  selector_diversity_bounds exDocs "p" "j" exSim "a.pdf"
    ⟨1, "1. Intro", exBody0, "a.pdf", 0⟩ (by decide)

/-! ### Claim C4: the Document Ranker -/

/-- C4 counterexample: in the concrete run, document `b.pdf` is processed
but yields zero sections, and contrary to the claim it receives no
aggregate score at all — the score dict has no entry under its basename —
rather than an aggregate score of 0; it is thereby excluded from the
ranking instead of ranked with score 0. -/
theorem document_aggregate_zero_counterexample :
    exDocB ∈ exDocs ∧ baseName exDocB.path = "b.pdf" ∧
      docSections exDocB = [] ∧
      dictLookup "b.pdf" (pipelineState exDocs "p" "j" exSim).1 = none := by
  decide

/-- C4 (amended): every document that contributes at least one section
receives an aggregate score equal to the arithmetic mean of the top 5 of
its (descending-sorted) section scores, over all of them when it has
fewer than 5; documents with zero sections receive no aggregate score and
are excluded from the ranking; the ranking orders the scored documents by
descending aggregate score, ties keeping the score dict's order (the
order in which document names first contributed sections). -/
theorem document_aggregate_mean (docs : List DocInput)
    (persona job : String) (sim : String → String → ℚ)
    (n : String) (v : ℚ)
    (h : dictLookup n (pipelineState docs persona job sim).1 = some v) :
    (∃ secs, dictLookup n (pipelineState docs persona job sim).2 = some secs ∧
      secs ≠ [] ∧ secs.Pairwise (fun x y => y.score ≤ x.score) ∧
      v = listMean ((secs.take 5).map (fun s => s.score))) ∧
    (∃ d ∈ docs, baseName d.path = n ∧ docSections d ≠ []) ∧
    (sortedDocuments docs persona job sim).Perm
      (pipelineState docs persona job sim).1 ∧
    (sortedDocuments docs persona job sim).Pairwise
      (fun x y => Prod.snd y ≤ Prod.snd x) ∧
    (∀ q, (sortedDocuments docs persona job sim).filter
        (fun x => decide (x.2 = q)) =
      (pipelineState docs persona job sim).1.filter
        (fun x => decide (x.2 = q))) := by
  have inv := pipeInv_pipelineState docs persona job sim
  obtain ⟨secs, hl2, hv⟩ := inv.meanEq n v h
  refine ⟨⟨secs, hl2, inv.nonempty2 n secs hl2, inv.sorted2 n secs hl2, hv⟩,
    ?_, sortDesc_perm _ _, sortDesc_pairwise _ _, fun q => sortDesc_filter _ _ q⟩
  have hsome : (dictLookup n (pipelineState docs persona job sim).1).isSome := by
    rw [h]
    rfl
  rcases lookup_source persona job sim docs ([], []) n hsome with h1 | h1
  · cases h1
  · exact h1

/-- Witness for C4 at the concrete run: `a.pdf` has aggregate score 0
(the mean of its two zero-scored sections). -/
theorem document_aggregate_mean_witness :
    dictLookup "a.pdf" (pipelineState exDocs "p" "j" exSim).1 = some 0 ∧
      ∃ d ∈ exDocs, baseName d.path = "a.pdf" ∧ docSections d ≠ [] := by
  have hl : dictLookup "a.pdf" (pipelineState exDocs "p" "j" exSim).1 = some 0 :=
    of_decide_eq_true (by with_unfolding_all rfl)
  exact ⟨hl, (document_aggregate_mean exDocs "p" "j" exSim "a.pdf" 0 hl).2.1⟩

/-! ### Claim C10: identification by basename -/

/-- Documents that contribute nothing under basename `n` leave the
entries for `n` untouched. -/
theorem foldl_pipeStep_frame (persona job : String)
    (sim : String → String → ℚ) :
    ∀ (docs : List DocInput) st (n : String),
      (∀ d ∈ docs, baseName d.path = n → docSections d = []) →
      dictLookup n (docs.foldl (pipeStep persona job sim) st).1 =
        dictLookup n st.1 ∧
      dictLookup n (docs.foldl (pipeStep persona job sim) st).2 =
        dictLookup n st.2 := by
  intro docs
  induction docs with
  | nil => intro st n h; exact ⟨rfl, rfl⟩
  | cons d t ih =>
    intro st n h
    rw [List.foldl_cons]
    have ht := ih (pipeStep persona job sim st d) n
      (fun d2 hd2 => h d2 (List.mem_cons_of_mem d hd2))
    have hstep : dictLookup n (pipeStep persona job sim st d).1 =
        dictLookup n st.1 ∧
        dictLookup n (pipeStep persona job sim st d).2 = dictLookup n st.2 := by
      simp only [pipeStep]
      split
      · exact ⟨rfl, rfl⟩
      · rename_i hne
        have hnb : ¬ baseName d.path = n := fun hb =>
          hne (h d (List.mem_cons_self d t) hb)
        constructor <;> rw [dictLookup_dictInsert, if_neg hnb]
    exact ⟨(ht.1).trans hstep.1, (ht.2).trans hstep.2⟩

/-- C10: documents are keyed by the basename of their path: a
section-contributing document placed after an earlier entry with the same
basename (and followed by no further contributor under that basename) has
its ranked sections and aggregate score stored as *the* entry for that
basename — the earlier entry's values are replaced — and the key lists of
both dicts stay duplicate-free, so at most one document per distinct
basename participates in ranking and selection. -/
theorem duplicate_basename_replacement (pre post : List DocInput)
    (d : DocInput) (persona job : String) (sim : String → String → ℚ)
    (hd : docSections d ≠ [])
    (hpost : ∀ d2 ∈ post, baseName d2.path = baseName d.path →
      docSections d2 = []) :
    dictLookup (baseName d.path)
        (pipelineState (pre ++ d :: post) persona job sim).2 =
      some (rankSections
        ((docSections d).map (fun s => { s with document := baseName d.path }))
        persona job sim) ∧
    dictLookup (baseName d.path)
        (pipelineState (pre ++ d :: post) persona job sim).1 =
      some (listMean (((rankSections
        ((docSections d).map (fun s => { s with document := baseName d.path }))
        persona job sim).take 5).map (fun s => s.score))) ∧
    ((pipelineState (pre ++ d :: post) persona job sim).1.map Prod.fst).Nodup ∧
    ((pipelineState (pre ++ d :: post) persona job sim).2.map Prod.fst).Nodup := by
  have inv := pipeInv_pipelineState (pre ++ d :: post) persona job sim
  have hfold : pipelineState (pre ++ d :: post) persona job sim =
      post.foldl (pipeStep persona job sim)
        (pipeStep persona job sim (pipelineState pre persona job sim) d) := by
    simp only [pipelineState, List.foldl_append, List.foldl_cons]
  have hframe := foldl_pipeStep_frame persona job sim post
    (pipeStep persona job sim (pipelineState pre persona job sim) d)
    (baseName d.path) hpost
  refine ⟨?_, ?_, inv.nodup1, inv.nodup2⟩
  · rw [hfold, hframe.2]
    simp only [pipeStep, if_neg hd]
    rw [dictLookup_dictInsert, if_pos rfl]
  · rw [hfold, hframe.1]
    simp only [pipeStep, if_neg hd]
    rw [dictLookup_dictInsert, if_pos rfl]

/-- Witness for C10: `x/dup.pdf` is replaced by the later `y/dup.pdf`
sharing the basename `dup.pdf`. -/
theorem duplicate_basename_replacement_witness :
    dictLookup (baseName "y/dup.pdf")
        (pipelineState
          ([{ path := "x/dup.pdf", pageData := some (exPages, exMatches) }] ++
            { path := "y/dup.pdf", pageData := some (exPages, exMatches) } :: [])
          "p" "j" exSim).2 =
      some (rankSections
        ((docSections { path := "y/dup.pdf", pageData := some (exPages, exMatches) }).map
          (fun s => { s with document := baseName "y/dup.pdf" }))
        "p" "j" exSim) ∧
    dictLookup (baseName "y/dup.pdf")
        (pipelineState
          ([{ path := "x/dup.pdf", pageData := some (exPages, exMatches) }] ++
            { path := "y/dup.pdf", pageData := some (exPages, exMatches) } :: [])
          "p" "j" exSim).1 =
      some (listMean (((rankSections
        ((docSections { path := "y/dup.pdf", pageData := some (exPages, exMatches) }).map
          (fun s => { s with document := baseName "y/dup.pdf" }))
        "p" "j" exSim).take 5).map (fun s => s.score))) ∧
    ((pipelineState
        ([{ path := "x/dup.pdf", pageData := some (exPages, exMatches) }] ++
          { path := "y/dup.pdf", pageData := some (exPages, exMatches) } :: [])
        "p" "j" exSim).1.map Prod.fst).Nodup ∧
    ((pipelineState
        ([{ path := "x/dup.pdf", pageData := some (exPages, exMatches) }] ++
          { path := "y/dup.pdf", pageData := some (exPages, exMatches) } :: [])
        "p" "j" exSim).2.map Prod.fst).Nodup :=
  duplicate_basename_replacement
    [{ path := "x/dup.pdf", pageData := some (exPages, exMatches) }] []
    { path := "y/dup.pdf", pageData := some (exPages, exMatches) }
    "p" "j" exSim (by decide) (by simp)

/-! ### Claims C5, C9: the Subsection Extractor -/

theorem mem_candidateSubs {sec : Section} {c : String → ℚ} {u : Subsection}
    (hu : u ∈ candidateSubs sec c) :
    u.document = sec.document ∧ u.page = sec.page ∧
      50 ≤ u.refined_text.length ∧
      ∃ para ∈ pySplitParas sec.text,
        u.refined_text = pyStrip para ∧ u.score = c para := by
  simp only [candidateSubs] at hu
  rw [List.mem_filterMap] at hu
  obtain ⟨para, hp, he⟩ := hu
  split at he
  · cases he
  · rename_i hlen
    cases he
    exact ⟨rfl, rfl, Nat.le_of_not_lt hlen, para, hp, rfl, rfl⟩

theorem mem_extractSubsections {sec : Section} {c : String → ℚ}
    {u : Subsection} (hu : u ∈ extractSubsections sec c) :
    u ∈ candidateSubs sec c := by
  simp only [extractSubsections] at hu
  exact mem_sortDesc.mp (List.mem_of_mem_take hu)

/-- C5: the subsection extractor returns at most 3 subsections, each with
refined text (the stripped paragraph) of at least 50 characters, sorted
descending by score; within a tied score the paragraphs keep their order
of appearance (the selection is a filtered subsequence of the candidate
list, which is in appearance order). -/
theorem subsection_extractor_bounds (sec : Section) (c : String → ℚ)
    (u : Subsection) (q : ℚ) (hu : u ∈ extractSubsections sec c) :
    (extractSubsections sec c).length ≤ 3 ∧
    50 ≤ u.refined_text.length ∧
    (extractSubsections sec c).Pairwise (fun x y => y.score ≤ x.score) ∧
    ((extractSubsections sec c).filter
        (fun t => decide (t.score = q))).Sublist
      ((candidateSubs sec c).filter (fun t => decide (t.score = q))) := by
  refine ⟨?_, (mem_candidateSubs (mem_extractSubsections hu)).2.2.1, ?_, ?_⟩
  · simp only [extractSubsections]
    exact List.length_take_le _ _
  · simp only [extractSubsections]
    exact List.Pairwise.sublist (List.take_sublist _ _) (sortDesc_pairwise _ _)
  · have h1 : List.Sublist
        (((sortDesc (fun t => t.score) (candidateSubs sec c)).take 3).filter
          (fun t => decide (t.score = q)))
        ((sortDesc (fun t => t.score) (candidateSubs sec c)).filter
          (fun t => decide (t.score = q))) :=
      List.Sublist.filter _ (List.take_sublist _ _)
    rw [sortDesc_filter] at h1
    exact h1

/-- Witness for C5: the spec scenario of a 40-character and an
80-character paragraph — only the long one is kept. -/
theorem subsection_extractor_bounds_witness :
    (extractSubsections exSubSection exSimC).length ≤ 3 ∧
    50 ≤ (⟨"a.pdf", 2, exPara80, 0⟩ : Subsection).refined_text.length ∧
    (extractSubsections exSubSection exSimC).Pairwise
      (fun x y => y.score ≤ x.score) ∧
    ((extractSubsections exSubSection exSimC).filter
        (fun t => decide (t.score = 0))).Sublist
      ((candidateSubs exSubSection exSimC).filter
        (fun t => decide (t.score = 0))) :=
  subsection_extractor_bounds exSubSection exSimC
    ⟨"a.pdf", 2, exPara80, 0⟩ 0 (by decide)

/-- C9: every subsection in the result carries exactly the document
identifier and page number of the selected section whose body it was
extracted from; the extractor and the assembler copy these two fields
verbatim. -/
theorem subsection_inherits_document_page (docs : List DocInput)
    (persona job : String) (sim : String → String → ℚ) (timestamp : String)
    (sub : OutSub)
    (h : sub ∈
      (processDocuments docs persona job sim timestamp).sub_section_analysis) :
    ∃ sec ∈ selectedSections docs persona job sim,
      ∃ u ∈ extractSubsections sec (sim (persona ++ ". " ++ job)),
        sub = ⟨u.document, u.page, u.refined_text⟩ ∧
        sub.document = sec.document ∧ sub.page_number = sec.page := by
  simp only [processDocuments, processDocumentsWith] at h
  rw [List.mem_map] at h
  obtain ⟨u, hu, he⟩ := h
  rw [List.mem_flatMap] at hu
  obtain ⟨sec, hsec, hu2⟩ := hu
  have hf := mem_candidateSubs (mem_extractSubsections hu2)
  refine ⟨sec, hsec, u, hu2, he.symm, ?_, ?_⟩
  · rw [← he]
    exact hf.1
  · rw [← he]
    exact hf.2.1

/-- Witness for C9: the first subsection of the concrete run. -/
theorem subsection_inherits_document_page_witness :
    ∃ sec ∈ selectedSections exDocs "p" "j" exSim,
      ∃ u ∈ extractSubsections sec (exSim ("p" ++ ". " ++ "j")),
        (⟨"a.pdf", 1, exBody0⟩ : OutSub) = ⟨u.document, u.page, u.refined_text⟩ ∧
        (⟨"a.pdf", 1, exBody0⟩ : OutSub).document = sec.document ∧
        (⟨"a.pdf", 1, exBody0⟩ : OutSub).page_number = sec.page :=
  subsection_inherits_document_page exDocs "p" "j" exSim "t"
    ⟨"a.pdf", 1, exBody0⟩ (by decide)

/-! ### Claims C6, C7: the pipeline entry point -/

theorem foldl_pipeStep_skip (persona job : String)
    (sim : String → String → ℚ) :
    ∀ (docs : List DocInput) st, (∀ d ∈ docs, docSections d = []) →
      docs.foldl (pipeStep persona job sim) st = st := by
  intro docs
  induction docs with
  | nil => intro st h; rfl
  | cons d t ih =>
    intro st h
    rw [List.foldl_cons]
    have hd : docSections d = [] := h d (List.mem_cons_self d t)
    have hstep : pipeStep persona job sim st d = st := by
      simp [pipeStep, hd]
    rw [hstep]
    exact ih st (fun d2 hd2 => h d2 (List.mem_cons_of_mem d hd2))

/-- C6: when no document contributes any section (in particular on an
empty input list), the pipeline — a total function, so no exception —
returns empty section and subsection lists with fully populated metadata,
and the subsection extractor is never invoked: the result does not depend
on it. -/
theorem empty_corpus_graceful (docs : List DocInput) (persona job : String)
    (sim : String → String → ℚ) (timestamp : String)
    (h : ∀ d ∈ docs, docSections d = []) :
    (processDocuments docs persona job sim timestamp).extracted_sections = [] ∧
    (processDocuments docs persona job sim timestamp).sub_section_analysis = [] ∧
    (processDocuments docs persona job sim timestamp).metadata =
      ⟨docs.map (fun d => baseName d.path), persona, job, timestamp⟩ ∧
    ∀ f g, processDocumentsWith f docs persona job sim timestamp =
      processDocumentsWith g docs persona job sim timestamp := by
  have hst : pipelineState docs persona job sim = ([], []) :=
    foldl_pipeStep_skip persona job sim docs ([], []) h
  have hsel : selectedSections docs persona job sim = [] := by
    simp only [selectedSections, pooledSections, hst]
    rfl
  refine ⟨?_, ?_, rfl, ?_⟩
  · simp only [processDocuments, processDocumentsWith, hsel]
    rfl
  · simp only [processDocuments, processDocumentsWith, hsel]
    rfl
  · intro f g
    simp only [processDocumentsWith, hsel]
    rfl

/-- Witness for C6: the empty input document list. -/
theorem empty_corpus_graceful_witness :
    (processDocuments [] "p" "j" exSim "t").extracted_sections = [] ∧
    (processDocuments [] "p" "j" exSim "t").sub_section_analysis = [] ∧
    (processDocuments [] "p" "j" exSim "t").metadata = ⟨[], "p", "j", "t"⟩ ∧
    ∀ f g, processDocumentsWith f [] "p" "j" exSim "t" =
      processDocumentsWith g [] "p" "j" exSim "t" :=
  empty_corpus_graceful [] "p" "j" exSim "t" (by simp)

/-- C7: with the embedding model held fixed — modelled by passing the
same score function `sim`, which is what "deterministic embedding" means
here — two runs on identical documents, persona and job produce identical
selected sections with identical importance ranks and identical
subsections; only the processing timestamp in the metadata may differ. -/
theorem pipeline_deterministic (docs : List DocInput) (persona job : String)
    (sim : String → String → ℚ) (t1 t2 : String) :
    (processDocuments docs persona job sim t1).extracted_sections =
      (processDocuments docs persona job sim t2).extracted_sections ∧
    (processDocuments docs persona job sim t1).sub_section_analysis =
      (processDocuments docs persona job sim t2).sub_section_analysis ∧
    (processDocuments docs persona job sim t1).metadata.input_documents =
      (processDocuments docs persona job sim t2).metadata.input_documents ∧
    (processDocuments docs persona job sim t1).metadata.persona =
      (processDocuments docs persona job sim t2).metadata.persona ∧
    (processDocuments docs persona job sim t1).metadata.job_to_be_done =
      (processDocuments docs persona job sim t2).metadata.job_to_be_done :=
  ⟨rfl, rfl, rfl, rfl, rfl⟩

end DocAnalyst
